import Mathlib

/-!
Verification of the protocol-improver backend (FastAPI + Claude pipeline).

This file gives a shallow embedding of the pieces of the repository that the
claims talk about:

* `jsonLoads` — a model of Python's `json.loads` on the JSON value grammar
  (model restrictions, noted inline: numeric literals are integers only, and
  string escapes do not include the `\uXXXX` form; both restrictions only
  narrow the set of accepted texts, they never change the result on a text
  both accept).
* `parseAnalysisResponse` — `ProtocolAnalyzer._parse_analysis_response`
  (analyzer.py), including the exceptions that can escape its
  `except json.JSONDecodeError` handler.
* `previewText` — `TextExtractor.preview_text` (text_extractor.py).
* `acceptedSugg` / `improveEndpoint` — the suggestion filtering and response
  construction of the `/api/improve` endpoint (main.py), with the external
  model call abstracted as an oracle argument.
* `analyzeProtocolFn` / `analyzeEndpointOutcome` / `quickCheck` — the error
  translation of `ProtocolAnalyzer.analyze_protocol`, the `/api/analyze`
  endpoint, and `ProtocolAnalyzer.quick_check`.
* `analysisIdOf` — the analysis-id construction of `/api/analyze`
  (timestamp-prefixed stored filename plus a second-granularity timestamp).

Strings are modelled as `List Char` (Python `str` is a sequence of code
points; all operations used by the code are per-character).
-/

/-- JSON values as produced by `json.loads`.  Objects are association lists
in insertion order, mirroring Python dicts; `num` carries the integer value
(model restriction: fractional/exponent literals are not modelled). -/
inductive JVal : Type where
  | null : JVal
  | bool : Bool → JVal
  | num : Int → JVal
  | str : List Char → JVal
  | arr : List JVal → JVal
  | obj : List (List Char × JVal) → JVal

/-- A decoded Python dict: keys in insertion order, no duplicate keys
(duplicates are collapsed at insertion time, as Python's `dict[k] = v` does). -/
abbrev Dict := List (List Char × JVal)

/-- Python `d[k]` / `d.get(k)`: value of the first (unique) matching key. -/
def getKey (d : Dict) (k : List Char) : Option JVal :=
  match d with
  | [] => none
  | (k', v) :: rest => if k' = k then some v else getKey rest k

/-- Python `k in d`. -/
def hasKey (d : Dict) (k : List Char) : Bool :=
  (getKey d k).isSome

/-- Python `d[k] = v`: replace the value at an existing key in place,
otherwise append the new pair at the end (Python dicts preserve the original
insertion position on reassignment). -/
def setKey (d : Dict) (k : List Char) (v : JVal) : Dict :=
  match d with
  | [] => [(k, v)]
  | (k', v') :: rest => if k' = k then (k', v) :: rest else (k', v') :: setKey rest k v

/-- JSON whitespace skipping (space, tab, newline, carriage return). -/
def skipWs : List Char → List Char
  | [] => []
  | c :: rest =>
    if c = ' ' ∨ c = '\t' ∨ c = '\n' ∨ c = '\r' then skipWs rest else c :: rest

/-- JSON string escape characters (model restriction: `\uXXXX` is not
modelled; an input using it is simply not in the modelled grammar). -/
def escChar : Char → Option Char
  | '"' => some '"'
  | '\\' => some '\\'
  | '/' => some '/'
  | 'b' => some (Char.ofNat 8)
  | 'f' => some (Char.ofNat 12)
  | 'n' => some '\n'
  | 'r' => some '\r'
  | 't' => some '\t'
  | _ => none

/-- Parse the body of a JSON string after the opening quote; returns the
decoded characters and the rest of the input after the closing quote.
Raw control characters below 0x20 are rejected, as `json.loads` does. -/
def parseStringBody : List Char → Option (List Char × List Char)
  | [] => none
  | c :: rest =>
    if c = '"' then some ([], rest)
    else if c = '\\' then
      match rest with
      | [] => none
      | e :: rest2 =>
        match escChar e, parseStringBody rest2 with
        | some ec, some (s, r) => some (ec :: s, r)
        | _, _ => none
    else if c.toNat < 32 then none
    else
      match parseStringBody rest with
      | some (s, r) => some (c :: s, r)
      | none => none

/-- Numeric value of a decimal digit character. -/
def digitVal (c : Char) : Nat := c.toNat - 48

/-- Split a character list into its leading run of decimal digits and the rest. -/
def parseDigits (s : List Char) : List Char × List Char :=
  (s.takeWhile Char.isDigit, s.dropWhile Char.isDigit)

/-- JSON integer literal: optional minus sign, then `0` or a nonzero digit
followed by digits (leading zeros are rejected, as in the JSON grammar). -/
def parseNumber (s : List Char) : Option (Int × List Char) :=
  let p : Bool × List Char :=
    match s with
    | '-' :: rest => (true, rest)
    | _ => (false, s)
  match parseDigits p.2 with
  | ([], _) => none
  | (ds, rest) =>
    if ds.length > 1 ∧ ds.head? = some '0' then none
    else
      let n : Nat := ds.foldl (fun a c => a * 10 + digitVal c) 0
      some (if p.1 then -(n : Int) else (n : Int), rest)

mutual

/-- Fuel-indexed JSON value parser; returns the value and the unconsumed rest. -/
def parseVal : Nat → List Char → Option (JVal × List Char)
  | 0, _ => none
  | fuel + 1, s =>
    match skipWs s with
    | [] => none
    | c :: rest =>
      if c = '{' then
        match skipWs rest with
        | '}' :: r2 => some (.obj [], r2)
        | r2 => parseMembers fuel [] r2
      else if c = '[' then
        match skipWs rest with
        | ']' :: r2 => some (.arr [], r2)
        | r2 => parseItems fuel [] r2
      else if c = '"' then
        match parseStringBody rest with
        | some (cs, r2) => some (.str cs, r2)
        | none => none
      else if c = 't' then
        match rest with
        | 'r' :: 'u' :: 'e' :: r2 => some (.bool true, r2)
        | _ => none
      else if c = 'f' then
        match rest with
        | 'a' :: 'l' :: 's' :: 'e' :: r2 => some (.bool false, r2)
        | _ => none
      else if c = 'n' then
        match rest with
        | 'u' :: 'l' :: 'l' :: r2 => some (.null, r2)
        | _ => none
      else if c = '-' ∨ c.isDigit then
        match parseNumber (c :: rest) with
        | some (n, r2) => some (.num n, r2)
        | none => none
      else none

/-- Parse the members of a JSON object after its opening brace (nonempty
case); duplicate keys collapse via `setKey`, i.e. last value wins while the
first occurrence fixes the position, as in Python's dict building. -/
def parseMembers : Nat → Dict → List Char → Option (JVal × List Char)
  | 0, _, _ => none
  | fuel + 1, acc, s =>
    match skipWs s with
    | '"' :: rest =>
      match parseStringBody rest with
      | none => none
      | some (k, r1) =>
        match skipWs r1 with
        | ':' :: r2 =>
          match parseVal fuel r2 with
          | none => none
          | some (v, r3) =>
            match skipWs r3 with
            | ',' :: r4 => parseMembers fuel (setKey acc k v) r4
            | '}' :: r4 => some (.obj (setKey acc k v), r4)
            | _ => none
        | _ => none
    | _ => none

/-- Parse the items of a JSON array after its opening bracket (nonempty case). -/
def parseItems : Nat → List JVal → List Char → Option (JVal × List Char)
  | 0, _, _ => none
  | fuel + 1, acc, s =>
    match parseVal fuel s with
    | none => none
    | some (v, r1) =>
      match skipWs r1 with
      | ',' :: r2 => parseItems fuel (acc ++ [v]) r2
      | ']' :: r2 => some (.arr (acc ++ [v]), r2)
      | _ => none

end

/-- Model of Python `json.loads`: parse one value, then require only
whitespace to remain.  The fuel `2 * length + 4` dominates the number of
grammar productions any input of that length can trigger. -/
def jsonLoads (s : List Char) : Option JVal :=
  match parseVal (2 * s.length + 4) s with
  | some (v, rest) => if skipWs rest = [] then some v else none
  | none => none

/-! ## `_parse_analysis_response` (analyzer.py, lines 114-156) -/

/-- Exceptions that can escape `_parse_analysis_response`'s
`except json.JSONDecodeError` handler. -/
inductive PyErr : Type where
  | typeError : PyErr
  | attributeError : PyErr
deriving DecidableEq

/-- Python `s.find(c)`: index of the first occurrence, or `-1`. -/
def strFind (s : List Char) (c : Char) : Int :=
  match s.findIdx? (· = c) with
  | some i => (i : Int)
  | none => -1

/-- Python `s.rfind(c)`: index of the last occurrence, or `-1`. -/
def strRFind (s : List Char) (c : Char) : Int :=
  match s.reverse.findIdx? (· = c) with
  | some i => (s.length : Int) - 1 - (i : Int)
  | none => -1

/-- Python `s[a:b]` for the non-negative bounds produced by `find`/`rfind`
in `_parse_analysis_response` (the only slicing the code performs). -/
def pySlice (s : List Char) (a b : Int) : List Char :=
  (s.drop a.toNat).take (b.toNat - a.toNat)

def suggestionsKey : List Char := "suggestions".toList

def summaryKey : List Char := "summary".toList

def totalIssuesKey : List Char := "total_issues".toList

def priorityKey : List Char := "priority".toList

def errorKey : List Char := "error".toList

def messageKey : List Char := "message".toList

def rawResponseKey : List Char := "raw_response".toList

/-- Python `len(x)`: defined for sequences and mappings, `TypeError` otherwise. -/
def pyLen : JVal → Option Nat
  | .arr l => some l.length
  | .str s => some s.length
  | .obj d => some d.length
  | _ => none

/-- The sort key `priority_order.get(x.get('priority', 'LOW'), 3)` with
`priority_order = dict HIGH 0, MEDIUM 1, LOW 2`: `AttributeError` when the
element is not a dict (no `.get`), `TypeError` when the priority value is
unhashable (a list or a dict). -/
def priorityRank : JVal → Except PyErr Nat
  | .obj d =>
    match (getKey d priorityKey).getD (.str "LOW".toList) with
    | .arr _ => .error .typeError
    | .obj _ => .error .typeError
    | .str s =>
      .ok (if s = "HIGH".toList then 0
           else if s = "MEDIUM".toList then 1
           else if s = "LOW".toList then 2
           else 3)
    | _ => .ok 3
  | _ => .error .attributeError

/-- CPython's `list.sort(key=...)` evaluates the key on every element, in
list order, before sorting; the first failing element's exception is raised. -/
def ranksDefined : List JVal → Except PyErr Unit
  | [] => .ok ()
  | x :: rest =>
    match priorityRank x with
    | .error e => .error e
    | .ok _ => ranksDefined rest

/-- The total sort key used once `ranksDefined` has succeeded (the default
branch is never reached in that case). -/
def suggRank (x : JVal) : Nat :=
  match priorityRank x with
  | .ok r => r
  | .error _ => 3

/-- Python's `list.sort` is a stable sort; modelled as the stable insertion
sort, sorting by the computed rank. -/
def sortSuggestions (l : List JVal) : List JVal :=
  l.insertionSort (fun a b => suggRank a ≤ suggRank b)

def analysisCompletedMsg : List Char := "Analysis completed".toList

def unexpectedFormatMsg : List Char :=
  "Analysis completed but response format was unexpected".toList

/-- The decode-failure message (the Python code appends `str(e)` of the
`JSONDecodeError`; the variable detail is not modelled, and no claim
mentions it). -/
def decodeFailureMsg : List Char := "Could not parse analysis response".toList

/-- The dict literal returned when no brace span is found (analyzer.py 143-148). -/
def unexpectedFormatResult (t : List Char) : Dict :=
  [(summaryKey, .str unexpectedFormatMsg),
   (suggestionsKey, .arr []),
   (totalIssuesKey, .num 0),
   (rawResponseKey, .str t)]

/-- The dict literal returned from the `except json.JSONDecodeError` handler
(analyzer.py 150-156). -/
def decodeFailureResult (t : List Char) : Dict :=
  [(errorKey, .bool true),
   (messageKey, .str decodeFailureMsg),
   (suggestionsKey, .arr []),
   (rawResponseKey, .str t)]

/-- Default-fill of a missing `suggestions` field (analyzer.py 127-128). -/
def fillSugg (analysis : Dict) : Dict :=
  if hasKey analysis suggestionsKey then analysis
  else setKey analysis suggestionsKey (.arr [])

/-- Default-fill of a missing `summary` field (analyzer.py 129-130). -/
def fillSummary (analysis : Dict) : Dict :=
  if hasKey analysis summaryKey then analysis
  else setKey analysis summaryKey (.str analysisCompletedMsg)

/-- Default-fill of a missing `total_issues` field with
`len(analysis['suggestions'])` (analyzer.py 131-132); `none` is the
`TypeError` raised by `len` on a non-sized value. -/
def fillTotal (analysis : Dict) : Option Dict :=
  if hasKey analysis totalIssuesKey then some analysis
  else
    match getKey analysis suggestionsKey with
    | some v =>
      match pyLen v with
      | some n => some (setKey analysis totalIssuesKey (.num n))
      | none => none
    | none => none

/-- The in-place `analysis['suggestions'].sort(key=...)` (analyzer.py
134-138): `AttributeError` when the value is not a list, the key
function's exception when it fails on some element. -/
def sortStep (analysis : Dict) : Except PyErr Dict :=
  match getKey analysis suggestionsKey with
  | some (.arr l) =>
    match ranksDefined l with
    | .error e => .error e
    | .ok _ => .ok (setKey analysis suggestionsKey (.arr (sortSuggestions l)))
  | some _ => .error .attributeError
  | none => .error .attributeError

/-- The post-decode section of `_parse_analysis_response` (analyzer.py
126-140): default-fill `suggestions`, `summary`, `total_issues`, then sort
the suggestions in place.  Exceptions raised here (`len` of a non-sized
value, `.sort` on a non-list, the key function on a non-dict element or an
unhashable priority) are not caught by the `except json.JSONDecodeError`
handler. -/
def postProcess (analysis : Dict) : Except PyErr Dict :=
  match fillTotal (fillSummary (fillSugg analysis)) with
  | none => .error .typeError
  | some a3 => sortStep a3

/-- `ProtocolAnalyzer._parse_analysis_response` (analyzer.py 114-156).
`Except.error` is an exception escaping the function; `.ok` a returned dict.
The `some _` fallback below is unreachable: the slice begins with a brace,
so a successful `json.loads` yields an object. -/
def parseAnalysisResponse (response_text : List Char) : Except PyErr Dict :=
  let json_start := strFind response_text '{'
  let json_end := strRFind response_text '}' + 1
  if json_start ≠ -1 ∧ json_end > json_start then
    let json_text := pySlice response_text json_start json_end
    match jsonLoads json_text with
    | some (.obj analysis) => postProcess analysis
    | some _ => .error .typeError
    | none => .ok (decodeFailureResult response_text)
  else
    .ok (unexpectedFormatResult response_text)

/-! ## `preview_text` (text_extractor.py, lines 108-122) -/

/-- `TextExtractor.preview_text`: the full text when it fits, else the first
`max_chars` characters followed by the `"..."` marker. -/
def previewText (text : List Char) (max_chars : Nat) : List Char :=
  if text.length ≤ max_chars then text
  else text.take max_chars ++ "...".toList

/-! ## `/api/improve` (main.py, lines 232-277) and
`ProtocolAnalyzer.generate_improved_protocol` (analyzer.py, lines 158-210) -/

/-- Python `l[i]` on a list: non-negative indices index from the front,
negative indices from the back; `none` is an `IndexError`. -/
def pyGetItem {α : Type} (l : List α) (i : Int) : Option α :=
  if 0 ≤ i then l.get? i.toNat
  else if 0 ≤ (l.length : Int) + i then l.get? ((l.length : Int) + i).toNat
  else none

/-- The list comprehension
`[all_suggestions[i] for i in accepted_indices if i < len(all_suggestions)]`
(main.py 237-240).  The guard drops only indices `≥ len`; a surviving
too-negative index makes the subscript raise `IndexError` (`none`). -/
def acceptedSugg (all_suggestions : List JVal) (accepted_indices : List Int) :
    Option (List JVal) :=
  match accepted_indices with
  | [] => some []
  | i :: rest =>
    if i < (all_suggestions.length : Int) then
      match pyGetItem all_suggestions i with
      | none => none
      | some x => (acceptedSugg all_suggestions rest).map (x :: ·)
    else acceptedSugg all_suggestions rest

def locationKey : List Char := "location".toList

def suggestionKey : List Char := "suggestion".toList

/-- Decimal rendering of an integer (Python `str` on an `int`). -/
def intToChars (i : Int) : List Char :=
  if i < 0 then '-' :: (Nat.toDigits 10 i.natAbs) else Nat.toDigits 10 i.natAbs

/-- Python `str()` as used by the f-string in the bullet list.  The values
are strings in every intended run; container and scalar renderings are
abbreviated (no claim depends on the rendering). -/
def pyStr : JVal → List Char
  | .str s => s
  | .num i => intToChars i
  | .bool true => "True".toList
  | .bool false => "False".toList
  | .null => "None".toList
  | .arr _ => "[...]".toList
  | .obj _ => "\x7b...\x7d".toList

/-- One bullet line `- {location}: {suggestion}` of the revision prompt
(analyzer.py 176-179).  `none` models the `KeyError` (missing key) or
`TypeError` (non-dict element) raised while building the line; that happens
before the analyzer's `try`, so it escapes `generate_improved_protocol`. -/
def suggestionLine (s : JVal) : Option (List Char) :=
  match s with
  | .obj d =>
    match getKey d locationKey, getKey d suggestionKey with
    | some loc, some sug =>
      some ("- ".toList ++ pyStr loc ++ ": ".toList ++ pyStr sug)
    | _, _ => none
  | _ => none

/-- `"\n".join(...)` over the bullet lines. -/
def suggestionsText : List JVal → Option (List Char)
  | [] => some []
  | [s] => suggestionLine s
  | s :: rest =>
    match suggestionLine s, suggestionsText rest with
    | some line, some t => some (line ++ '\n' :: t)
    | _, _ => none

/-- `ProtocolAnalyzer.generate_improved_protocol` (analyzer.py 158-210).
`modelReply` is the external model call: `.ok t` a reply with text `t`,
`.error ()` any exception from the API client.  The analyzer catches that
exception, prints it, and returns the original text.  `none` is the
uncaught `KeyError`/`TypeError` from the bullet-list construction. -/
def generateImprovedProtocol (original_text : List Char)
    (accepted_suggestions : List JVal) (modelReply : Except Unit (List Char)) :
    Option (List Char) :=
  if accepted_suggestions.isEmpty then some original_text
  else
    match suggestionsText accepted_suggestions with
    | none => none
    | some _ =>
      match modelReply with
      | .ok improved_text => some improved_text
      | .error _ => some original_text

def noSuggestionsMsg : List Char :=
  "No suggestions accepted, returning original protocol".toList

def improvedOkMsg : List Char := "Protocol improved successfully".toList

/-- Outcome of the `/api/improve` endpoint: a JSON success body (its
`improved_protocol`, `suggestions_applied` and `message` fields), or an
HTTP error response. -/
inductive ImproveOutcome : Type where
  | success (improved_protocol : List Char) (suggestions_applied : Nat)
      (message : List Char) : ImproveOutcome
  | httpError (code : Nat) : ImproveOutcome
deriving DecidableEq

/-- The `/api/improve` endpoint body from the cached record on (main.py
232-277): filter the accepted indices, short-circuit when nothing survives,
otherwise run the analyzer and report the count.  An `IndexError` from the
comprehension (outside the `try`) and an exception from the analyzer call
(inside it, re-raised as `HTTPException`) both surface as a 500 response;
the file write of the improved text is I/O outside the model. -/
def improveEndpoint (original_text : List Char) (all_suggestions : List JVal)
    (accepted_indices : List Int) (modelReply : Except Unit (List Char)) :
    ImproveOutcome :=
  match acceptedSugg all_suggestions accepted_indices with
  | none => .httpError 500
  | some accepted =>
    if accepted.isEmpty then
      .success original_text 0 noSuggestionsMsg
    else
      match generateImprovedProtocol original_text accepted modelReply with
      | none => .httpError 500
      | some improved => .success improved accepted.length improvedOkMsg

/-! ## `ProtocolAnalyzer.analyze_protocol`, `quick_check` (analyzer.py) and
the error translation of `/api/analyze` (main.py, lines 157-166) -/

def analysisFailedMsg : List Char := "Analysis failed".toList

/-- The dict returned by `analyze_protocol`'s generic `except Exception`
handler (analyzer.py 61-66; the appended `str(e)` detail is not modelled). -/
def analysisFailedResult : Dict :=
  [(errorKey, .bool true),
   (messageKey, .str analysisFailedMsg),
   (suggestionsKey, .arr [])]

def metadataKey : List Char := "metadata".toList

/-- `ProtocolAnalyzer.analyze_protocol` (analyzer.py 16-66): call the model,
parse its reply, attach metadata.  The generic `except Exception` turns both
a model-call failure and a parse crash into the error dict.  `meta` stands
for the metadata dict assembled from the filename, model name and token
usage (values that live outside the modelled state). -/
def analyzeProtocolFn (modelReply : Except Unit (List Char)) (meta : JVal) : Dict :=
  match modelReply with
  | .error _ => analysisFailedResult
  | .ok response_text =>
    match parseAnalysisResponse response_text with
    | .error _ => analysisFailedResult
    | .ok analysis_result => setKey analysis_result metadataKey meta

/-- Python truthiness, as `analysis_result.get('error')` is used in a
boolean context (main.py 162). -/
def truthy : JVal → Bool
  | .null => false
  | .bool b => b
  | .num n => n ≠ 0
  | .str s => !s.isEmpty
  | .arr l => !l.isEmpty
  | .obj d => !d.isEmpty

/-- Outcome of the `/api/analyze` error translation: the analysis dict on
success, or an HTTP error response. -/
inductive AnalyzeOutcome : Type where
  | success (analysis : Dict) : AnalyzeOutcome
  | httpError (code : Nat) : AnalyzeOutcome

/-- The `/api/analyze` error translation (main.py 157-166): run the
analyzer; if the result carries a truthy `error` field, raise a 500
`HTTPException` instead of returning it. -/
def analyzeEndpointOutcome (modelReply : Except Unit (List Char)) (meta : JVal) :
    AnalyzeOutcome :=
  let r := analyzeProtocolFn modelReply meta
  match getKey r errorKey with
  | some v => if truthy v then .httpError 500 else .success r
  | none => .success r

/-- `ProtocolAnalyzer.quick_check` (analyzer.py 212-228): `True` on a
successful round-trip, `False` when the call raises (the exception is
printed and converted, never propagated). -/
def quickCheck (modelReply : Except Unit (List Char)) : Bool :=
  match modelReply with
  | .ok _ => true
  | .error _ => false

/-! ## Analysis ids (main.py, lines 94-95 and 168-169) -/

/-- A `datetime.now()` value, down to microseconds. -/
structure PyDateTime : Type where
  year : Nat
  month : Nat
  day : Nat
  hour : Nat
  minute : Nat
  second : Nat
  microsecond : Nat
deriving DecidableEq

/-- Decimal digits, by fuel (the fuel `n + 1` always suffices since the
argument shrinks by a factor of ten per step). -/
def natDigitsAux : Nat → Nat → List Char
  | 0, _ => []
  | fuel + 1, n =>
    if n < 10 then [Nat.digitChar n]
    else natDigitsAux fuel (n / 10) ++ [Nat.digitChar (n % 10)]

/-- Decimal digits of a natural number (`str(n)`). -/
def natDigits (n : Nat) : List Char := natDigitsAux (n + 1) n

/-- Zero-padded fixed-width decimal field, as the `strftime` directives
produce. -/
def padNum (w n : Nat) : List Char :=
  List.replicate (w - (natDigits n).length) '0' ++ natDigits n

/-- `datetime.now().strftime("%Y%m%d_%H%M%S")` — the upload-save prefix
(main.py 94). -/
def fmtUploadTs (t : PyDateTime) : List Char :=
  padNum 4 t.year ++ padNum 2 t.month ++ padNum 2 t.day ++
  '_' :: (padNum 2 t.hour ++ padNum 2 t.minute ++ padNum 2 t.second)

/-- `datetime.now().strftime('%Y%m%d%H%M%S')` — the analyze-time suffix
(main.py 169). -/
def fmtAnalyzeTs (t : PyDateTime) : List Char :=
  padNum 4 t.year ++ padNum 2 t.month ++ padNum 2 t.day ++
  padNum 2 t.hour ++ padNum 2 t.minute ++ padNum 2 t.second

/-- `safe_filename = f"TIMESTAMP_ORIGINALNAME"` (main.py 95). -/
def safeFilename (uploadTime : PyDateTime) (original_filename : List Char) :
    List Char :=
  fmtUploadTs uploadTime ++ '_' :: original_filename

/-- `analysis_id = f"SAFEFILENAME_TIMESTAMP"` (main.py 169): the stored
filename combined with a second-granularity analyze timestamp. -/
def analysisIdOf (uploadTime : PyDateTime) (original_filename : List Char)
    (analyzeTime : PyDateTime) : List Char :=
  safeFilename uploadTime original_filename ++ '_' :: fmtAnalyzeTs analyzeTime

/-! ## Association-list (dict) lemmas -/

theorem getKey_setKey_self (d : Dict) (k : List Char) (v : JVal) :
    getKey (setKey d k v) k = some v := by
  induction d with
  | nil => simp [setKey, getKey]
  | cons p rest ih =>
    obtain ⟨k', v'⟩ := p
    by_cases h : k' = k
    · simp [setKey, getKey, h]
    · simp [setKey, getKey, h, ih]

theorem getKey_setKey_ne (d : Dict) (k k2 : List Char) (v : JVal) (h : k2 ≠ k) :
    getKey (setKey d k2 v) k = getKey d k := by
  induction d with
  | nil => simp [setKey, getKey, h]
  | cons p rest ih =>
    obtain ⟨k', v'⟩ := p
    by_cases h2 : k' = k2
    · subst h2
      have h3 : ¬ k' = k := fun hk => h (hk ▸ rfl)
      simp [setKey, getKey, h3]
    · by_cases h3 : k' = k
      · subst h3
        simp [setKey, getKey, h2]
      · simp [setKey, getKey, h2, h3, ih]

theorem hasKey_setKey_ne (d : Dict) (k k2 : List Char) (v : JVal) (h : k2 ≠ k) :
    hasKey (setKey d k2 v) k = hasKey d k := by
  simp [hasKey, getKey_setKey_ne d k k2 v h]

theorem hasKey_setKey_self (d : Dict) (k : List Char) (v : JVal) :
    hasKey (setKey d k v) k = true := by
  simp [hasKey, getKey_setKey_self]

/-! ## Stable-sort lemmas for the suggestion sort -/

theorem perm_sortSuggestions (l : List JVal) : List.Perm (sortSuggestions l) l :=
  List.perm_insertionSort _ l

theorem sorted_sortSuggestions (l : List JVal) :
    (sortSuggestions l).Sorted (fun a b => suggRank a ≤ suggRank b) := by
  haveI : IsTotal JVal (fun a b => suggRank a ≤ suggRank b) :=
    ⟨fun a b => Nat.le_total _ _⟩
  haveI : IsTrans JVal (fun a b => suggRank a ≤ suggRank b) :=
    ⟨fun _ _ _ => Nat.le_trans⟩
  exact List.sorted_insertionSort _ l

theorem filter_sortSuggestions (k : Nat) (l : List JVal) :
    (sortSuggestions l).filter (fun x => suggRank x == k) =
      l.filter (fun x => suggRank x == k) := by
  have hc : (l.filter (fun x => suggRank x == k)).Sublist l := List.filter_sublist l
  have hp : (l.filter (fun x => suggRank x == k)).Pairwise
      (fun a b => suggRank a ≤ suggRank b) := by
    refine List.pairwise_of_forall_mem_list ?_
    intro a ha b hb
    have ha3 : suggRank a = k := by simpa using (List.mem_filter.mp ha).2
    have hb3 : suggRank b = k := by simpa using (List.mem_filter.mp hb).2
    omega
  have hsub : (l.filter (fun x => suggRank x == k)).Sublist (sortSuggestions l) :=
    List.sublist_insertionSort hp hc
  have hall : ∀ a ∈ l.filter (fun x => suggRank x == k), (suggRank a == k) = true :=
    fun a ha => (List.mem_filter.mp ha).2
  have hsub2 : (l.filter (fun x => suggRank x == k)).Sublist
      ((sortSuggestions l).filter (fun x => suggRank x == k)) := by
    have h1 := hsub.filter (fun x => suggRank x == k)
    rwa [List.filter_eq_self.mpr hall] at h1
  have hperm : List.Perm ((sortSuggestions l).filter (fun x => suggRank x == k))
      (l.filter (fun x => suggRank x == k)) :=
    (perm_sortSuggestions l).filter _
  exact (hsub2.eq_of_length hperm.length_eq.symm).symm

/-- Whether the sort key evaluates without an exception on this element. -/
def suggElemOK (x : JVal) : Bool :=
  match priorityRank x with
  | .ok _ => true
  | .error _ => false

theorem ranksDefined_of_all (l : List JVal) (h : l.all suggElemOK = true) :
    ranksDefined l = .ok () := by
  induction l with
  | nil => rfl
  | cons x rest ih =>
    simp only [List.all_cons, Bool.and_eq_true] at h
    obtain ⟨h1, h2⟩ := h
    cases hpr : priorityRank x with
    | error e => simp [suggElemOK, hpr] at h1
    | ok r => simp [ranksDefined, hpr, ih h2]

/-! ## Branch structure of `parseAnalysisResponse` -/

/-- The brace-delimited span `response_text[json_start:json_end]` that the
parser hands to `json.loads`, when the guard on `find`/`rfind` holds. -/
def braceSpan (s : List Char) : Option (List Char) :=
  let json_start := strFind s '{'
  let json_end := strRFind s '}' + 1
  if json_start ≠ -1 ∧ json_end > json_start then
    some (pySlice s json_start json_end)
  else none

theorem parse_eq_of_braceSpan_none (s : List Char) (h : braceSpan s = none) :
    parseAnalysisResponse s = .ok (unexpectedFormatResult s) := by
  by_cases hcond : strFind s '{' ≠ -1 ∧ strRFind s '}' + 1 > strFind s '{'
  · simp [braceSpan, hcond] at h
  · simp [parseAnalysisResponse, hcond]

theorem parse_eq_of_decode_none (s t : List Char) (hs : braceSpan s = some t)
    (hl : jsonLoads t = none) :
    parseAnalysisResponse s = .ok (decodeFailureResult s) := by
  by_cases hcond : strFind s '{' ≠ -1 ∧ strRFind s '}' + 1 > strFind s '{'
  · simp only [braceSpan, if_pos hcond, Option.some.injEq] at hs
    simp [parseAnalysisResponse, hcond, hs, hl]
  · simp [braceSpan, hcond] at hs

theorem parse_eq_of_decode_obj (s t : List Char) (a : Dict)
    (hs : braceSpan s = some t) (hl : jsonLoads t = some (.obj a)) :
    parseAnalysisResponse s = postProcess a := by
  by_cases hcond : strFind s '{' ≠ -1 ∧ strRFind s '}' + 1 > strFind s '{'
  · simp only [braceSpan, if_pos hcond, Option.some.injEq] at hs
    simp [parseAnalysisResponse, hcond, hs, hl]
  · simp [braceSpan, hcond] at hs

/-! ## Specification of the post-decode normalization -/

/-- The decoded object's `suggestions` value, if present, is a list whose
elements survive the sort key (dicts with hashable priorities); this is the
condition under which the post-decode section raises no exception. -/
def suggListOK (analysis : Dict) : Bool :=
  match getKey analysis suggestionsKey with
  | none => true
  | some (.arr l) => l.all suggElemOK
  | some _ => false

theorem fillSugg_spec (analysis : Dict) :
    (∀ k, k ≠ suggestionsKey → getKey (fillSugg analysis) k = getKey analysis k) ∧
    (hasKey analysis suggestionsKey = true →
      getKey (fillSugg analysis) suggestionsKey = getKey analysis suggestionsKey) ∧
    (hasKey analysis suggestionsKey = false →
      getKey (fillSugg analysis) suggestionsKey = some (.arr [])) := by
  by_cases h : hasKey analysis suggestionsKey = true
  · simp [fillSugg, h]
  · simp only [Bool.not_eq_true] at h
    refine ⟨fun k hk => ?_, by simp [h], ?_⟩
    · simp [fillSugg, h, getKey_setKey_ne _ _ _ _ (Ne.symm hk)]
    · simp [fillSugg, h, getKey_setKey_self]

theorem fillSummary_spec (analysis : Dict) :
    (∀ k, k ≠ summaryKey → getKey (fillSummary analysis) k = getKey analysis k) ∧
    (hasKey analysis summaryKey = true →
      getKey (fillSummary analysis) summaryKey = getKey analysis summaryKey) ∧
    (hasKey analysis summaryKey = false →
      getKey (fillSummary analysis) summaryKey = some (.str analysisCompletedMsg)) := by
  by_cases h : hasKey analysis summaryKey = true
  · simp [fillSummary, h]
  · simp only [Bool.not_eq_true] at h
    refine ⟨fun k hk => ?_, by simp [h], ?_⟩
    · simp [fillSummary, h, getKey_setKey_ne _ _ _ _ (Ne.symm hk)]
    · simp [fillSummary, h, getKey_setKey_self]

theorem fillTotal_spec (analysis : Dict) (l : List JVal)
    (hs : getKey analysis suggestionsKey = some (.arr l)) :
    ∃ a3, fillTotal analysis = some a3 ∧
      (∀ k, k ≠ totalIssuesKey → getKey a3 k = getKey analysis k) ∧
      (hasKey analysis totalIssuesKey = true →
        getKey a3 totalIssuesKey = getKey analysis totalIssuesKey) ∧
      (hasKey analysis totalIssuesKey = false →
        getKey a3 totalIssuesKey = some (.num l.length)) := by
  by_cases h : hasKey analysis totalIssuesKey = true
  · exact ⟨analysis, by simp [fillTotal, h], fun k _ => rfl, fun _ => rfl, by simp [h]⟩
  · simp only [Bool.not_eq_true] at h
    refine ⟨setKey analysis totalIssuesKey (.num l.length),
      by simp [fillTotal, h, hs, pyLen], fun k hk => ?_, by simp [h], ?_⟩
    · exact getKey_setKey_ne _ _ _ _ (Ne.symm hk)
    · simp [getKey_setKey_self]

theorem sortStep_spec (analysis : Dict) (l : List JVal)
    (hs : getKey analysis suggestionsKey = some (.arr l))
    (hok : l.all suggElemOK = true) :
    ∃ out, sortStep analysis = .ok out ∧
      getKey out suggestionsKey = some (.arr (sortSuggestions l)) ∧
      (∀ k, k ≠ suggestionsKey → getKey out k = getKey analysis k) := by
  refine ⟨setKey analysis suggestionsKey (.arr (sortSuggestions l)),
    by simp [sortStep, hs, ranksDefined_of_all l hok], by simp [getKey_setKey_self],
    fun k hk => getKey_setKey_ne _ _ _ _ (Ne.symm hk)⟩

/-- Master specification of the post-decode normalization on a decoded
object whose `suggestions` shape does not crash the sort: the parse
succeeds, `suggestions` ends up as the stable sort of its input (or `[]`
when absent), `summary` and `total_issues` are filled exactly when absent,
and every other key keeps its value. -/
theorem postProcess_spec (analysis : Dict) (hOK : suggListOK analysis = true) :
    ∃ out l,
      postProcess analysis = .ok out ∧
      (getKey analysis suggestionsKey = some (.arr l) ∨
        (getKey analysis suggestionsKey = none ∧ l = [])) ∧
      l.all suggElemOK = true ∧
      getKey out suggestionsKey = some (.arr (sortSuggestions l)) ∧
      (∀ k, k ≠ suggestionsKey → k ≠ summaryKey → k ≠ totalIssuesKey →
        getKey out k = getKey analysis k) ∧
      (hasKey analysis summaryKey = true →
        getKey out summaryKey = getKey analysis summaryKey) ∧
      (hasKey analysis summaryKey = false →
        getKey out summaryKey = some (.str analysisCompletedMsg)) ∧
      (hasKey analysis totalIssuesKey = true →
        getKey out totalIssuesKey = getKey analysis totalIssuesKey) ∧
      (hasKey analysis totalIssuesKey = false →
        getKey out totalIssuesKey = some (.num l.length)) ∧
      hasKey out summaryKey = true ∧ hasKey out totalIssuesKey = true := by
  have nss : summaryKey ≠ suggestionsKey := by decide
  have nts : totalIssuesKey ≠ suggestionsKey := by decide
  have ntm : totalIssuesKey ≠ summaryKey := by decide
  obtain ⟨l, hA1s, hall, horig⟩ :
      ∃ l, getKey (fillSugg analysis) suggestionsKey = some (.arr l) ∧
        l.all suggElemOK = true ∧
        (getKey analysis suggestionsKey = some (.arr l) ∨
          (getKey analysis suggestionsKey = none ∧ l = [])) := by
    cases hg : getKey analysis suggestionsKey with
    | none =>
      have hh : hasKey analysis suggestionsKey = false := by simp [hasKey, hg]
      exact ⟨[], (fillSugg_spec analysis).2.2 hh, rfl, Or.inr ⟨rfl, rfl⟩⟩
    | some v =>
      have hh : hasKey analysis suggestionsKey = true := by simp [hasKey, hg]
      cases v with
      | arr l =>
        refine ⟨l, ?_, ?_, Or.inl rfl⟩
        · rw [(fillSugg_spec analysis).2.1 hh, hg]
        · simpa [suggListOK, hg] using hOK
      | null => simp [suggListOK, hg] at hOK
      | bool b => simp [suggListOK, hg] at hOK
      | num n => simp [suggListOK, hg] at hOK
      | str cs => simp [suggListOK, hg] at hOK
      | obj d => simp [suggListOK, hg] at hOK
  have h1 := fillSugg_spec analysis
  have h2 := fillSummary_spec (fillSugg analysis)
  -- `suggestions` survives the summary fill
  have hA2s : getKey (fillSummary (fillSugg analysis)) suggestionsKey =
      some (.arr l) := by rw [h2.1 suggestionsKey (Ne.symm nss), hA1s]
  obtain ⟨a3, ha3, ha3k, ha3t1, ha3t2⟩ :=
    fillTotal_spec (fillSummary (fillSugg analysis)) l hA2s
  have hA3s : getKey a3 suggestionsKey = some (.arr l) := by
    rw [ha3k suggestionsKey (Ne.symm nts), hA2s]
  obtain ⟨out, hout, houts, houtk⟩ := sortStep_spec a3 l hA3s hall
  have hpp : postProcess analysis = .ok out := by
    simp [postProcess, ha3, hout]
  -- transport of `summary` lookups back to `analysis`
  have hsumA1 : getKey (fillSugg analysis) summaryKey = getKey analysis summaryKey :=
    h1.1 summaryKey nss
  have hsumhas : hasKey (fillSugg analysis) summaryKey = hasKey analysis summaryKey := by
    simp [hasKey, hsumA1]
  have hsumOut : ∀ v, getKey (fillSummary (fillSugg analysis)) summaryKey = v →
      getKey out summaryKey = v := by
    intro v hv
    rw [houtk summaryKey nss, ha3k summaryKey (Ne.symm ntm), hv]
  -- transport of `total_issues` lookups back to `analysis`
  have htotA2 : getKey (fillSummary (fillSugg analysis)) totalIssuesKey =
      getKey analysis totalIssuesKey := by
    rw [h2.1 totalIssuesKey ntm, h1.1 totalIssuesKey nts]
  have htothas : hasKey (fillSummary (fillSugg analysis)) totalIssuesKey =
      hasKey analysis totalIssuesKey := by simp [hasKey, htotA2]
  refine ⟨out, l, hpp, horig, hall, houts, ?_, ?_, ?_, ?_, ?_, ?_, ?_⟩
  · intro k hk1 hk2 hk3
    rw [houtk k hk1, ha3k k hk3, h2.1 k hk2, h1.1 k hk1]
  · intro hh
    exact hsumOut _ ((h2.2.1 (hsumhas ▸ hh)).trans hsumA1)
  · intro hh
    exact hsumOut _ (h2.2.2 (hsumhas ▸ hh))
  · intro hh
    rw [houtk totalIssuesKey nts, ha3t1 (htothas ▸ hh), htotA2]
  · intro hh
    rw [houtk totalIssuesKey nts, ha3t2 (htothas ▸ hh)]
  · -- `summary` is present in the output in both cases
    cases hh : hasKey analysis summaryKey with
    | true =>
      have := hsumOut _ ((h2.2.1 (hsumhas ▸ hh)).trans hsumA1)
      have hin : hasKey analysis summaryKey = true := hh
      simp only [hasKey, hin, hasKey] at *
      obtain ⟨v, hv⟩ := Option.isSome_iff_exists.mp hin
      simp [hasKey, this, hv]
    | false =>
      have := hsumOut _ (h2.2.2 (hsumhas ▸ hh))
      simp [hasKey, this]
  · cases hh : hasKey analysis totalIssuesKey with
    | true =>
      have heq : getKey out totalIssuesKey = getKey analysis totalIssuesKey := by
        rw [houtk totalIssuesKey nts, ha3t1 (htothas ▸ hh), htotA2]
      obtain ⟨v, hv⟩ := Option.isSome_iff_exists.mp hh
      simp [hasKey, heq, hv]
    | false =>
      have heq : getKey out totalIssuesKey = some (.num l.length) := by
        rw [houtk totalIssuesKey nts, ha3t2 (htothas ▸ hh)]
      simp [hasKey, heq]

/-! ## Claim C9: `preview_text` -/

/-- C9: `preview_text(text, maxChars)` equals `text` exactly when
`len(text) ≤ maxChars`, and otherwise equals the first `maxChars`
characters of `text` followed by the `"..."` truncation marker; in
particular it is the identity on `text` whenever `maxChars ≥ len(text)`. -/
theorem c9_preview_text (text : List Char) (max_chars : Nat) :
    (text.length ≤ max_chars → previewText text max_chars = text) ∧
    (max_chars < text.length →
      previewText text max_chars = text.take max_chars ++ "...".toList) := by
  constructor
  · intro h
    simp [previewText, h]
  · intro h
    have h2 : ¬ text.length ≤ max_chars := by omega
    simp [previewText, h2]

def c9text : List Char := "abcdef".toList

/-- C9 witness: both branches evaluated at a concrete text. -/
theorem c9_preview_text_witness :
    previewText c9text 10 = c9text ∧
    previewText c9text 2 = c9text.take 2 ++ "...".toList :=
  ⟨(c9_preview_text c9text 10).1 (by decide),
   (c9_preview_text c9text 2).2 (by decide)⟩

/-! ## Claim C7: `Improve` with an empty accepted subset -/

def c7sugg : List JVal :=
  [.obj [(locationKey, .str "Step 3".toList), (suggestionKey, .str "Wear gloves".toList)]]

def c7orig : List Char := "the original".toList

def c7reply : List Char := "model output".toList

/-- C7 counterexample: with one cached suggestion and
`acceptedIndices = [-1]`, the in-range (`[0, len)`) subset of the indices
is empty, yet the endpoint invokes the model (its reply is returned) and
reports one suggestion applied — not the original text with zero applied. -/
theorem c7_counterexample :
    (([-1] : List Int)).filter
        (fun i => decide (0 ≤ i) && decide (i < (c7sugg.length : Int))) = [] ∧
    improveEndpoint c7orig c7sugg [-1] (.ok c7reply) =
      .success c7reply 1 improvedOkMsg :=
  ⟨rfl, rfl⟩

/-- C7 (amended): when the subset retained by the code's filter
(`i < len`, with negative indices resolved per Python indexing) is empty —
in particular for `acceptedIndices = []` — the endpoint returns the
original text unchanged with zero applied and the explicit
"no suggestions accepted" message, for every behaviour of the external
model (the early return precedes the model call, so the model is not
invoked). -/
theorem c7_improve_empty (orig : List Char) (sugg : List JVal) (idx : List Int)
    (h : acceptedSugg sugg idx = some []) :
    ∀ reply : Except Unit (List Char),
      improveEndpoint orig sugg idx reply = .success orig 0 noSuggestionsMsg := by
  intro reply
  simp [improveEndpoint, h]

/-- C7 witness: `acceptedIndices = []` on a concrete cached analysis. -/
theorem c7_improve_empty_witness :
    acceptedSugg c7sugg ([] : List Int) = some [] ∧
    improveEndpoint c7orig c7sugg [] (.ok c7reply) =
      .success c7orig 0 noSuggestionsMsg :=
  ⟨rfl, c7_improve_empty c7orig c7sugg [] rfl (.ok c7reply)⟩

/-! ## Claim C3: index filtering of `Improve` -/

theorem pyGetItem_eq_get_of_nonneg {α : Type} (l : List α) (i : Int) (h : 0 ≤ i) :
    pyGetItem l i = l.get? i.toNat := by
  simp [pyGetItem, h]

theorem pyGetItem_eq_get_of_neg {α : Type} (l : List α) (i : Int)
    (h1 : -(l.length : Int) ≤ i) (h2 : i < 0) :
    pyGetItem l i = l.get? ((l.length : Int) + i).toNat := by
  have h3 : ¬ 0 ≤ i := by omega
  have h4 : 0 ≤ (l.length : Int) + i := by omega
  simp [pyGetItem, h3, h4]

theorem pyGetItem_isSome {α : Type} (l : List α) (i : Int)
    (h1 : -(l.length : Int) ≤ i) (h2 : i < (l.length : Int)) :
    ∃ x, pyGetItem l i = some x := by
  unfold pyGetItem
  by_cases h : 0 ≤ i
  · simp only [if_pos h]
    cases hg : l.get? i.toNat with
    | none =>
      rw [List.get?_eq_none] at hg
      omega
    | some x => exact ⟨x, rfl⟩
  · have hge : 0 ≤ (l.length : Int) + i := by omega
    simp only [if_neg h, if_pos hge]
    cases hg : l.get? ((l.length : Int) + i).toNat with
    | none =>
      rw [List.get?_eq_none] at hg
      omega
    | some x => exact ⟨x, rfl⟩

theorem pyGetItem_mem {α : Type} (l : List α) (i : Int) (x : α)
    (h : pyGetItem l i = some x) : x ∈ l := by
  unfold pyGetItem at h
  split_ifs at h
  · exact List.get?_mem h
  · exact List.get?_mem h

theorem acceptedSugg_eq_filterMap (sugg : List JVal) (idx : List Int)
    (hno : ∀ i ∈ idx, i < (sugg.length : Int) → -(sugg.length : Int) ≤ i) :
    acceptedSugg sugg idx =
      some (idx.filterMap (fun i =>
        if i < (sugg.length : Int) then pyGetItem sugg i else none)) := by
  induction idx with
  | nil => rfl
  | cons i rest ih =>
    have hrest : ∀ j ∈ rest, j < (sugg.length : Int) → -(sugg.length : Int) ≤ j :=
      fun j hj => hno j (List.mem_cons_of_mem _ hj)
    by_cases h : i < (sugg.length : Int)
    · obtain ⟨x, hx⟩ := pyGetItem_isSome sugg i (hno i (List.mem_cons_self i rest) h) h
      simp [acceptedSugg, h, hx, ih hrest, List.filterMap_cons]
    · simp [acceptedSugg, h, ih hrest, List.filterMap_cons]

theorem suggestionsText_isSome (acc : List JVal)
    (h : ∀ x ∈ acc, (suggestionLine x).isSome = true) :
    (suggestionsText acc).isSome = true := by
  induction acc with
  | nil => rfl
  | cons x rest ih =>
    have hx := h x (List.mem_cons_self x rest)
    obtain ⟨line, hline⟩ := Option.isSome_iff_exists.mp hx
    cases rest with
    | nil => simpa [suggestionsText] using hx
    | cons y ys =>
      have hrest := ih (fun z hz => h z (List.mem_cons_of_mem _ hz))
      obtain ⟨t, ht⟩ := Option.isSome_iff_exists.mp hrest
      simp [suggestionsText, hline, ht]

theorem generateImproved_runs (orig reply : List Char) (acc : List JVal)
    (hne : acc.isEmpty = false) (hwf : ∀ x ∈ acc, (suggestionLine x).isSome = true) :
    generateImprovedProtocol orig acc (.ok reply) = some reply ∧
    generateImprovedProtocol orig acc (.error ()) = some orig := by
  obtain ⟨t, ht⟩ := Option.isSome_iff_exists.mp (suggestionsText_isSome acc hwf)
  constructor <;> simp [generateImprovedProtocol, hne, ht]

/-- An index list containing an index below `-len` makes the endpoint's
comprehension raise `IndexError`: the guard `i < len` passes (the length is
non-negative, so `i < -len` implies `i < len`), and the subscript resolves
to a position before the front of the list. -/
theorem acceptedSugg_none_of_too_negative (sugg : List JVal) (idx : List Int)
    (h : ∃ i ∈ idx, i < -(sugg.length : Int)) :
    acceptedSugg sugg idx = none := by
  induction idx with
  | nil => simp at h
  | cons j rest ih =>
    obtain ⟨i, hi, hbad⟩ := h
    rcases List.mem_cons.mp hi with heq | hmem
    · subst heq
      have hguard : i < (sugg.length : Int) := by omega
      have hitem : pyGetItem sugg i = none := by
        unfold pyGetItem
        rw [if_neg (by omega), if_neg (by omega)]
      simp [acceptedSugg, hguard, hitem]
    · have hrest : acceptedSugg sugg rest = none := ih ⟨i, hmem, hbad⟩
      by_cases hguard : j < (sugg.length : Int)
      · cases hj : pyGetItem sugg j with
        | none => simp [acceptedSugg, hguard, hj]
        | some x => simp [acceptedSugg, hguard, hj, hrest]
      · simp [acceptedSugg, hguard, hrest]

def c3sugg : List JVal :=
  [.obj [(locationKey, .str "Step 1".toList), (suggestionKey, .str "Add PPE".toList)]]

def c3orig : List Char := "orig text".toList

def c3reply : List Char := "improved text".toList

/-- C3 counterexample: with one cached suggestion, the index `-1` is
outside `[0, 1)`, yet `Improve` applies the (last) suggestion and reports
`suggestions_applied = 1` — the negative index is neither dropped nor
excluded from selecting a suggestion. -/
theorem c3_counterexample :
    ((-1 : Int) < 0) ∧
    improveEndpoint c3orig c3sugg [-1] (.ok c3reply) =
      .success c3reply 1 improvedOkMsg :=
  ⟨by decide, rfl⟩

/-- C3 (amended): the endpoint keeps exactly the indices with `i < len`,
resolving them by Python list indexing — a non-negative `i < len` selects
suggestion `i`, a negative `i ≥ -len` selects suggestion `len + i`, an
index `≥ len` is silently dropped, and `suggestions_applied` equals the
size of the kept subset; an index list containing a surviving index
`< -len` instead raises `IndexError`, surfacing as the 500 error response
whatever the model replies (last conjunct). -/
theorem c3_improve_filter (orig reply : List Char) (sugg : List JVal)
    (idx : List Int)
    (hno : ∀ i ∈ idx, i < (sugg.length : Int) → -(sugg.length : Int) ≤ i)
    (hwf : ∀ x ∈ sugg, (suggestionLine x).isSome = true) :
    ∃ accepted,
      acceptedSugg sugg idx = some accepted ∧
      accepted = idx.filterMap (fun i =>
        if i < (sugg.length : Int) then pyGetItem sugg i else none) ∧
      (∀ i : Int, 0 ≤ i → i < (sugg.length : Int) →
        pyGetItem sugg i = sugg.get? i.toNat) ∧
      (∀ i : Int, -(sugg.length : Int) ≤ i → i < 0 →
        pyGetItem sugg i = sugg.get? ((sugg.length : Int) + i).toNat) ∧
      (∀ i : Int, (sugg.length : Int) ≤ i →
        (if i < (sugg.length : Int) then pyGetItem sugg i else none) = none) ∧
      improveEndpoint orig sugg idx (.ok reply) =
        (if accepted.isEmpty then .success orig 0 noSuggestionsMsg
         else .success reply accepted.length improvedOkMsg) ∧
      (∀ idx2 : List Int, (∃ i ∈ idx2, i < -(sugg.length : Int)) →
        ∀ reply2 : Except Unit (List Char),
          improveEndpoint orig sugg idx2 reply2 = .httpError 500) := by
  refine ⟨_, acceptedSugg_eq_filterMap sugg idx hno, rfl,
    fun i h1 _ => pyGetItem_eq_get_of_nonneg sugg i h1,
    fun i h1 h2 => pyGetItem_eq_get_of_neg sugg i h1 h2,
    fun i hi => if_neg (by omega), ?_, ?_⟩
  · set accepted := idx.filterMap (fun i =>
      if i < (sugg.length : Int) then pyGetItem sugg i else none) with hdef
    cases hemp : accepted.isEmpty with
    | true =>
      have : accepted = [] := List.isEmpty_iff.mp hemp
      simp [improveEndpoint, acceptedSugg_eq_filterMap sugg idx hno, ← hdef, this]
    | false =>
      have hmem : ∀ x ∈ accepted, (suggestionLine x).isSome = true := by
        intro x hx
        obtain ⟨i, _, hfi⟩ := List.mem_filterMap.mp (hdef ▸ hx)
        by_cases h : i < (sugg.length : Int)
        · rw [if_pos h] at hfi
          exact hwf x (pyGetItem_mem sugg i x hfi)
        · rw [if_neg h] at hfi
          exact absurd hfi (by simp)
      have hrun := (generateImproved_runs orig reply accepted hemp hmem).1
      simp [improveEndpoint, acceptedSugg_eq_filterMap sugg idx hno, ← hdef, hemp, hrun]
  · intro idx2 h2 reply2
    simp [improveEndpoint, acceptedSugg_none_of_too_negative sugg idx2 h2]

def c3wsugg : List JVal :=
  [.obj [(locationKey, .str "Step 1".toList), (suggestionKey, .str "Add PPE".toList)],
   .obj [(locationKey, .str "Step 2".toList), (suggestionKey, .str "Add timing".toList)]]

/-- C3 witness: concrete indices `[0, 5, -1]` against two suggestions. -/
theorem c3_improve_filter_witness :
    (∀ i ∈ ([0, 5, -1] : List Int), i < (c3wsugg.length : Int) →
      -(c3wsugg.length : Int) ≤ i) ∧
    (∀ x ∈ c3wsugg, (suggestionLine x).isSome = true) ∧
    (∃ accepted,
      acceptedSugg c3wsugg [0, 5, -1] = some accepted ∧
      accepted = ([0, 5, -1] : List Int).filterMap (fun i =>
        if i < (c3wsugg.length : Int) then pyGetItem c3wsugg i else none) ∧
      (∀ i : Int, 0 ≤ i → i < (c3wsugg.length : Int) →
        pyGetItem c3wsugg i = c3wsugg.get? i.toNat) ∧
      (∀ i : Int, -(c3wsugg.length : Int) ≤ i → i < 0 →
        pyGetItem c3wsugg i = c3wsugg.get? ((c3wsugg.length : Int) + i).toNat) ∧
      (∀ i : Int, (c3wsugg.length : Int) ≤ i →
        (if i < (c3wsugg.length : Int) then pyGetItem c3wsugg i else none) = none) ∧
      improveEndpoint c3orig c3wsugg [0, 5, -1] (.ok c3reply) =
        (if accepted.isEmpty then .success c3orig 0 noSuggestionsMsg
         else .success c3reply accepted.length improvedOkMsg) ∧
      (∀ idx2 : List Int, (∃ i ∈ idx2, i < -(c3wsugg.length : Int)) →
        ∀ reply2 : Except Unit (List Char),
          improveEndpoint c3orig c3wsugg idx2 reply2 = .httpError 500)) :=
  ⟨by decide, by decide,
   c3_improve_filter c3orig c3reply c3wsugg [0, 5, -1] (by decide) (by decide)⟩

/-! ## Claim C4: surfacing of model-call failures -/

def c4sugg : List JVal :=
  [.obj [(locationKey, .str "Step 2".toList), (suggestionKey, .str "Add timing".toList)]]

def c4orig : List Char := "original protocol".toList

/-- C4 counterexample: a model-call failure during `Improve` (oracle
`.error ()`) is swallowed — `generate_improved_protocol` catches the
exception and returns the original text, and the endpoint reports an
apparently successful result ("Protocol improved successfully", one
suggestion applied) instead of an error. -/
theorem c4_counterexample :
    improveEndpoint c4orig c4sugg [0] (.error ()) =
      .success c4orig 1 improvedOkMsg :=
  rfl

/-- C4 (amended): a model-call failure is surfaced as an HTTP 500 by the
analyze path, and converted to a boolean by `quick_check` — but during
`Improve` it is swallowed: the analyzer returns the original text and the
endpoint reports success with the full applied count. -/
theorem c4_model_failure_paths (meta : JVal) (orig : List Char)
    (sugg : List JVal) (idx : List Int) (accepted : List JVal)
    (hacc : acceptedSugg sugg idx = some accepted)
    (hne : accepted.isEmpty = false)
    (hwf : ∀ x ∈ accepted, (suggestionLine x).isSome = true) :
    analyzeEndpointOutcome (.error ()) meta = .httpError 500 ∧
    quickCheck (.error ()) = false ∧
    improveEndpoint orig sugg idx (.error ()) =
      .success orig accepted.length improvedOkMsg := by
  refine ⟨rfl, rfl, ?_⟩
  have hrun := (generateImproved_runs orig orig accepted hne hwf).2
  simp [improveEndpoint, hacc, hne, hrun]

/-- C4 witness: one accepted suggestion, failing model call. -/
theorem c4_model_failure_paths_witness :
    acceptedSugg c4sugg [0] = some c4sugg ∧
    c4sugg.isEmpty = false ∧
    (∀ x ∈ c4sugg, (suggestionLine x).isSome = true) ∧
    (analyzeEndpointOutcome (.error ()) .null = .httpError 500 ∧
     quickCheck (.error ()) = false ∧
     improveEndpoint c4orig c4sugg [0] (.error ()) =
       .success c4orig c4sugg.length improvedOkMsg) :=
  ⟨rfl, by decide, by decide,
   c4_model_failure_paths .null c4orig c4sugg [0] c4sugg rfl (by decide)
     (by decide)⟩

/-! ## Claim C5: uniqueness of analysis ids -/

theorem natDigitsAux_length_le (fuel n k : Nat) (hk : 1 ≤ k) (hn : n < 10 ^ k)
    (hf : n < fuel) : (natDigitsAux fuel n).length ≤ k := by
  induction fuel generalizing n k with
  | zero => omega
  | succ fuel ih =>
    by_cases h10 : n < 10
    · simp [natDigitsAux, h10]
      omega
    · simp only [natDigitsAux, if_neg h10, List.length_append, List.length_cons,
        List.length_nil]
    
      have hk2 : 2 ≤ k := by
        by_contra hlt
        have hk1 : k = 1 := by omega
        subst hk1
        simp at hn
        omega
      have hdiv : n / 10 < 10 ^ (k - 1) := by
        apply Nat.div_lt_of_lt_mul
        have : 10 ^ (k - 1) * 10 = 10 ^ k := by
          rw [← pow_succ]
          congr 1
          omega
        omega
      have hfd : n / 10 < fuel := by
        have h1 : n / 10 < n := Nat.div_lt_self (by omega) (by omega)
        omega
      have := ih (n / 10) (k - 1) (by omega) hdiv hfd
      omega

theorem natDigits_length_le (n k : Nat) (hk : 1 ≤ k) (hn : n < 10 ^ k) :
    (natDigits n).length ≤ k :=
  natDigitsAux_length_le (n + 1) n k hk hn (by omega)

theorem padNum_length (w n : Nat) (h : (natDigits n).length ≤ w) :
    (padNum w n).length = w := by
  simp [padNum]
  omega

theorem natDigits_length_le_two (x : Nat) (hx : x ≤ 99) :
    (natDigits x).length ≤ 2 := by
  refine natDigits_length_le x 2 (by omega) ?_
  have : (10 : Nat) ^ 2 = 100 := by norm_num
  omega

theorem natDigits_length_le_four (x : Nat) (hx : x ≤ 9999) :
    (natDigits x).length ≤ 4 := by
  refine natDigits_length_le x 4 (by omega) ?_
  have : (10 : Nat) ^ 4 = 10000 := by norm_num
  omega

/-- The bounds under which the `strftime` fields have their nominal widths
(true a fortiori for calendar dates). -/
def dtBounded (t : PyDateTime) : Prop :=
  t.year ≤ 9999 ∧ t.month ≤ 99 ∧ t.day ≤ 99 ∧ t.hour ≤ 99 ∧
    t.minute ≤ 99 ∧ t.second ≤ 99

instance (t : PyDateTime) : Decidable (dtBounded t) := by
  unfold dtBounded
  infer_instance

theorem fmtUploadTs_length (t : PyDateTime) (h : dtBounded t) :
    (fmtUploadTs t).length = 15 := by
  obtain ⟨hy, hm, hd, hh, hmi, hs⟩ := h
  simp [fmtUploadTs, padNum_length 4 t.year (natDigits_length_le_four t.year hy),
    padNum_length 2 t.month (natDigits_length_le_two t.month hm),
    padNum_length 2 t.day (natDigits_length_le_two t.day hd),
    padNum_length 2 t.hour (natDigits_length_le_two t.hour hh),
    padNum_length 2 t.minute (natDigits_length_le_two t.minute hmi),
    padNum_length 2 t.second (natDigits_length_le_two t.second hs)]

theorem fmtAnalyzeTs_length (t : PyDateTime) (h : dtBounded t) :
    (fmtAnalyzeTs t).length = 14 := by
  obtain ⟨hy, hm, hd, hh, hmi, hs⟩ := h
  simp [fmtAnalyzeTs, padNum_length 4 t.year (natDigits_length_le_four t.year hy),
    padNum_length 2 t.month (natDigits_length_le_two t.month hm),
    padNum_length 2 t.day (natDigits_length_le_two t.day hd),
    padNum_length 2 t.hour (natDigits_length_le_two t.hour hh),
    padNum_length 2 t.minute (natDigits_length_le_two t.minute hmi),
    padNum_length 2 t.second (natDigits_length_le_two t.second hs)]

def c5name : List Char := "protocol.pdf".toList

def c5timeA : PyDateTime := ⟨2026, 10, 12, 9, 30, 0, 0⟩

def c5timeB : PyDateTime := ⟨2026, 10, 12, 9, 30, 0, 500000⟩

/-- C5 counterexample: two distinct Analyze calls — the same filename
uploaded and analyzed at two distinct instants of the same second (they
differ in microseconds) — are assigned the same analysis id, because the
id only combines the stored filename with second-granularity timestamps. -/
theorem c5_counterexample :
    c5timeA ≠ c5timeB ∧
    analysisIdOf c5timeA c5name c5timeA = analysisIdOf c5timeB c5name c5timeB :=
  ⟨by decide, rfl⟩

/-- C5 (amended): the id determines the formatted triple — two Analyze
calls receive distinct ids exactly when they differ in the original
filename or in a second-granularity (formatted) timestamp; calls sharing
all three collide. -/
theorem c5_id_determines_triple (u1 u2 a1 a2 : PyDateTime) (n1 n2 : List Char)
    (hu1 : dtBounded u1) (hu2 : dtBounded u2)
    (ha1 : dtBounded a1) (ha2 : dtBounded a2)
    (heq : analysisIdOf u1 n1 a1 = analysisIdOf u2 n2 a2) :
    fmtUploadTs u1 = fmtUploadTs u2 ∧ n1 = n2 ∧
      fmtAnalyzeTs a1 = fmtAnalyzeTs a2 := by
  have L1 := fmtUploadTs_length u1 hu1
  have L2 := fmtUploadTs_length u2 hu2
  have L3 := fmtAnalyzeTs_length a1 ha1
  have L4 := fmtAnalyzeTs_length a2 ha2
  unfold analysisIdOf safeFilename at heq
  rw [List.append_assoc, List.append_assoc] at heq
  obtain ⟨h1, h2⟩ := List.append_inj heq (by omega)
  simp only [List.cons_append, List.cons.injEq, true_and] at h2
  obtain ⟨h3, h4⟩ := List.append_inj' h2 (by simp [List.length_cons]; omega)
  simp only [List.cons.injEq, true_and] at h4
  exact ⟨h1, h3, h4⟩

def c5wtime : PyDateTime := ⟨2026, 10, 12, 9, 30, 5, 123⟩

/-- C5 witness: concrete bounded datetimes with equal ids. -/
theorem c5_id_determines_triple_witness :
    dtBounded c5wtime ∧
    analysisIdOf c5wtime c5name c5wtime = analysisIdOf c5wtime c5name c5wtime ∧
    (fmtUploadTs c5wtime = fmtUploadTs c5wtime ∧ c5name = c5name ∧
      fmtAnalyzeTs c5wtime = fmtAnalyzeTs c5wtime) :=
  ⟨by decide, rfl,
   c5_id_determines_triple c5wtime c5wtime c5wtime c5wtime c5name c5name
     (by decide) (by decide) (by decide) (by decide) rfl⟩

/-! ## Claim C1: totality of the response parser -/

theorem parseMembers_obj : ∀ fuel acc s v r,
    parseMembers fuel acc s = some (v, r) → ∃ d, v = JVal.obj d := by
  intro fuel
  induction fuel with
  | zero => intro acc s v r h; simp [parseMembers] at h
  | succ fuel ih =>
    intro acc s v r h
    simp only [parseMembers] at h
    split at h
    · split at h
      · simp at h
      · split at h
        · split at h
          · simp at h
          · split at h
            · exact ih _ _ _ _ h
            · rw [Option.some.injEq, Prod.mk.injEq] at h
              exact ⟨_, h.1.symm⟩
            · simp at h
        · simp at h
    · simp at h

theorem parseVal_brace_obj : ∀ fuel s rest v r,
    skipWs s = '{' :: rest → parseVal fuel s = some (v, r) → ∃ d, v = JVal.obj d := by
  intro fuel s rest v r hsw h
  cases fuel with
  | zero => simp [parseVal] at h
  | succ fuel =>
    simp only [parseVal, hsw] at h
    rw [if_pos trivial] at h
    split at h
    · rw [Option.some.injEq, Prod.mk.injEq] at h
      exact ⟨_, h.1.symm⟩
    · exact parseMembers_obj _ _ _ _ _ h

theorem skipWs_brace (rest : List Char) : skipWs ('{' :: rest) = '{' :: rest := by
  rw [skipWs]
  exact if_neg (by decide)

/-- A text beginning with an opening brace can only decode to an object. -/
theorem jsonLoads_obj_of_brace (t rest : List Char) (hhead : t = '{' :: rest) :
    ∀ v, jsonLoads t = some v → ∃ d, v = JVal.obj d := by
  intro v h
  unfold jsonLoads at h
  cases hp : parseVal (2 * t.length + 4) t with
  | none => rw [hp] at h; simp at h
  | some pr =>
    obtain ⟨v', r⟩ := pr
    rw [hp] at h
    dsimp only at h
    by_cases hws : skipWs r = []
    · rw [if_pos hws] at h
      rw [Option.some.injEq] at h
      subst h
      exact parseVal_brace_obj _ t rest v' r (hhead ▸ skipWs_brace rest) hp
    · rw [if_neg hws] at h
      simp at h

/-- The brace span, when it exists, starts with the brace the parser
located. -/
theorem braceSpan_head (s t : List Char) (h : braceSpan s = some t) :
    ∃ rest, t = '{' :: rest := by
  unfold braceSpan at h
  by_cases hcond : strFind s '{' ≠ -1 ∧ strRFind s '}' + 1 > strFind s '{'
  case neg => rw [if_neg hcond] at h; simp at h
  case pos =>
    rw [if_pos hcond] at h
    obtain ⟨h1, h2⟩ := hcond
    rw [Option.some.injEq] at h
    subst h
    cases hf : List.findIdx? (fun x => x = '{') s with
    | none =>
      exfalso
      apply h1
      unfold strFind
      rw [hf]
    | some i =>
      obtain ⟨hlt, hp, _⟩ := List.findIdx?_eq_some_iff_getElem.mp hf
      have hchar : s[i] = '{' := by simpa using hp
      have hsf : strFind s '{' = (i : Int) := by unfold strFind; rw [hf]
      have hge : (strRFind s '}' + 1).toNat ≥ i + 1 := by
        rw [hsf] at h2
        omega
      unfold pySlice
      rw [hsf, Int.toNat_natCast]
      rw [List.drop_eq_getElem_cons hlt, hchar]
      obtain ⟨m, hm2⟩ : ∃ m, (strRFind s '}' + 1).toNat - i = m + 1 :=
        ⟨(strRFind s '}' + 1).toNat - i - 1, by omega⟩
      rw [hm2]
      exact ⟨_, rfl⟩

/-- The condition under which the parser returns instead of raising: when
the brace span exists and decodes, the object's `suggestions` field (if
present) must be a list of dicts with hashable priorities.  (The decoded
value is necessarily an object — `jsonLoads_obj_of_brace` — so the last
arm never fires.) -/
def parseShapeOK (s : List Char) : Bool :=
  match braceSpan s with
  | none => true
  | some t =>
    match jsonLoads t with
    | none => true
    | some (.obj a) => suggListOK a
    | some _ => false

def cexSuggestionsNumber : List Char :=
  ['{', '"'] ++ "suggestions".toList ++ ['"', ':', ' ', '5', '}']

/-- C1 counterexample: on the raw text whose span decodes to a JSON object
with `suggestions` equal to the number `5`, `_parse_analysis_response`
raises `TypeError` (from `len()` during the `total_issues` default-fill)
instead of returning a result — the `except json.JSONDecodeError` handler
does not catch it. -/
theorem c1_counterexample :
    parseAnalysisResponse cexSuggestionsNumber = .error .typeError :=
  rfl

/-- C1 (amended): the parser returns a result — never an escaping
exception — for every input whose decoded span (when one decodes) carries
a well-shaped `suggestions` field: absent, or a list of objects with
hashable priorities.  Malformed input still degrades to a returned dict;
only a decoded object with an ill-shaped `suggestions` value crashes. -/
theorem c1_parse_total (s : List Char) (h : parseShapeOK s = true) :
    ∃ d, parseAnalysisResponse s = .ok d := by
  cases hb : braceSpan s with
  | none => exact ⟨_, parse_eq_of_braceSpan_none s hb⟩
  | some t =>
    cases hl : jsonLoads t with
    | none => exact ⟨_, parse_eq_of_decode_none s t hb hl⟩
    | some v =>
      obtain ⟨rest, hrest⟩ := braceSpan_head s t hb
      obtain ⟨a, ha⟩ := jsonLoads_obj_of_brace t rest hrest v hl
      subst ha
      have hOK : suggListOK a = true := by
        unfold parseShapeOK at h
        rw [hb] at h
        dsimp only at h
        rw [hl] at h
        exact h
      obtain ⟨out, l, hpp, _⟩ := postProcess_spec a hOK
      exact ⟨out, (parse_eq_of_decode_obj s t a hb hl).trans hpp⟩

def c1wtext : List Char := "no json here at all".toList

/-- C1 witness: a braceless input, well-shaped by vacuity. -/
theorem c1_parse_total_witness :
    parseShapeOK c1wtext = true ∧ ∃ d, parseAnalysisResponse c1wtext = .ok d :=
  ⟨rfl, c1_parse_total c1wtext rfl⟩

/-! ## Claim C2: priority ordering of parsed suggestions -/

/-- The rank map exactly as the claim states it: HIGH 0, MEDIUM 1, LOW 2,
anything else — including a missing priority field — 3. -/
def claimRank : JVal → Nat
  | .obj d =>
    match getKey d priorityKey with
    | some (.str s) =>
      if s = "HIGH".toList then 0
      else if s = "MEDIUM".toList then 1
      else if s = "LOW".toList then 2
      else 3
    | some _ => 3
    | none => 3
  | _ => 3

/-- Boolean non-decreasing check for a rank function. -/
def isSortedByRank (rank : JVal → Nat) : List JVal → Bool
  | [] => true
  | [_] => true
  | x :: y :: rest => decide (rank x ≤ rank y) && isSortedByRank rank (y :: rest)

def cexMissingPriority : List Char :=
  ['{', '"'] ++ "suggestions".toList ++ ['"', ':', ' ', '[', '{', '}', ',', ' ', '{', '"'] ++
  "priority".toList ++ ['"', ':', ' ', '"'] ++ "LOW".toList ++ ['"', '}', ']', '}']

def cexMissingPriorityResult : Dict :=
  [(suggestionsKey, .arr [.obj [], .obj [(priorityKey, .str "LOW".toList)]]),
   (summaryKey, .str analysisCompletedMsg),
   (totalIssuesKey, .num 2)]

/-- C2 counterexample: the span decodes to an object whose suggestions are
a suggestion without a priority field followed by a LOW one.  The code
ranks a missing priority as LOW (2), so the stable sort keeps the input
order — but under the claim's rank map (missing priority: 3) the returned
sequence is ranked `[3, 2]`, which is not non-decreasing. -/
theorem c2_counterexample :
    jsonLoads cexMissingPriority = some (.obj
      [(suggestionsKey, .arr [.obj [], .obj [(priorityKey, .str "LOW".toList)]])]) ∧
    parseAnalysisResponse cexMissingPriority = .ok cexMissingPriorityResult ∧
    getKey cexMissingPriorityResult suggestionsKey =
      some (.arr [.obj [], .obj [(priorityKey, .str "LOW".toList)]]) ∧
    isSortedByRank claimRank
      [.obj [], .obj [(priorityKey, .str "LOW".toList)]] = false :=
  ⟨rfl, rfl, rfl, rfl⟩

/-- C2 (amended): on every successful decode with a `suggestions` list
(of dicts with hashable priorities), the returned sequence is the stable
sort of the input by the rank map HIGH 0, MEDIUM 1, LOW 2, *missing
priority 2 (treated as LOW)*, other 3: it is non-decreasing in that rank,
and for every rank value the subsequence of that rank keeps the input
order. -/
theorem c2_sorted_stable (s t : List Char) (a : Dict) (l : List JVal)
    (hb : braceSpan s = some t) (hl : jsonLoads t = some (.obj a))
    (hs : getKey a suggestionsKey = some (.arr l))
    (hok : l.all suggElemOK = true) :
    ∃ out, parseAnalysisResponse s = .ok out ∧
      getKey out suggestionsKey = some (.arr (sortSuggestions l)) ∧
      (sortSuggestions l).Sorted (fun x y => suggRank x ≤ suggRank y) ∧
      (∀ k, (sortSuggestions l).filter (fun x => suggRank x == k) =
        l.filter (fun x => suggRank x == k)) := by
  have hOK : suggListOK a = true := by
    unfold suggListOK
    rw [hs]
    exact hok
  obtain ⟨out, l', hpp, horig, hall, houts, _⟩ := postProcess_spec a hOK
  have hll : l' = l := by
    rcases horig with h | ⟨h, _⟩
    · rw [hs] at h
      simpa using h.symm
    · rw [hs] at h
      simp at h
  rw [hll] at houts
  exact ⟨out, (parse_eq_of_decode_obj s t a hb hl).trans hpp, houts,
    sorted_sortSuggestions l, fun k => filter_sortSuggestions k l⟩

/-- C2 witness: the amended statement evaluated on the concrete response
of the counterexample (LOW after a missing-priority suggestion). -/
theorem c2_sorted_stable_witness :
    braceSpan cexMissingPriority = some cexMissingPriority ∧
    jsonLoads cexMissingPriority = some (.obj
      [(suggestionsKey, .arr [.obj [], .obj [(priorityKey, .str "LOW".toList)]])]) ∧
    ([.obj [], .obj [(priorityKey, .str "LOW".toList)]] : List JVal).all
      suggElemOK = true ∧
    (∃ out, parseAnalysisResponse cexMissingPriority = .ok out ∧
      getKey out suggestionsKey = some (.arr (sortSuggestions
        [.obj [], .obj [(priorityKey, .str "LOW".toList)]])) ∧
      (sortSuggestions [.obj [], .obj [(priorityKey, .str "LOW".toList)]]).Sorted
        (fun x y => suggRank x ≤ suggRank y) ∧
      (∀ k, (sortSuggestions
          [.obj [], .obj [(priorityKey, .str "LOW".toList)]]).filter
          (fun x => suggRank x == k) =
        ([.obj [], .obj [(priorityKey, .str "LOW".toList)]] : List JVal).filter
          (fun x => suggRank x == k))) :=
  ⟨rfl, rfl, rfl,
   c2_sorted_stable cexMissingPriority cexMissingPriority
     [(suggestionsKey, .arr [.obj [], .obj [(priorityKey, .str "LOW".toList)]])]
     [.obj [], .obj [(priorityKey, .str "LOW".toList)]] rfl rfl rfl rfl⟩

/-! ## Claim C6: recovery of an embedded JSON object -/

theorem strFind_concat (pre tail : List Char) (c : Char) (hpre : c ∉ pre)
    (hc : ∃ r, tail = c :: r) :
    strFind (pre ++ tail) c = (pre.length : Int) := by
  obtain ⟨r, hr⟩ := hc
  subst hr
  unfold strFind
  rw [List.findIdx?_append]
  have h1 : List.findIdx? (fun x => x = c) pre = none := by
    rw [List.findIdx?_eq_none_iff]
    intro x hx
    simp only [decide_eq_false_iff_not]
    exact fun he => hpre (he ▸ hx)
  rw [h1]
  simp [List.findIdx?_cons]

theorem strRFind_concat (front post : List Char) (c : Char) (hpost : c ∉ post)
    (hfront : ∃ r, front.reverse = c :: r) :
    strRFind (front ++ post) c = (front.length : Int) - 1 := by
  obtain ⟨r, hr⟩ := hfront
  unfold strRFind
  rw [List.reverse_append, List.findIdx?_append]
  have h1 : List.findIdx? (fun x => x = c) post.reverse = none := by
    rw [List.findIdx?_eq_none_iff]
    intro x hx
    simp only [decide_eq_false_iff_not]
    rw [List.mem_reverse] at hx
    exact fun he => hpost (he ▸ hx)
  rw [h1, hr]
  simp [List.findIdx?_cons]
  omega

/-- When the leading junk has no opening brace and the trailing junk no
closing brace, the parser's span is exactly the embedded object text. -/
theorem braceSpan_wrapped (pre obj post : List Char)
    (hpre : '{' ∉ pre) (hpost : '}' ∉ post)
    (hobj1 : ∃ r, obj = '{' :: r) (hobj2 : ∃ r, obj.reverse = '}' :: r) :
    braceSpan (pre ++ obj ++ post) = some obj := by
  obtain ⟨r1, hr1⟩ := hobj1
  have hfind : strFind (pre ++ obj ++ post) '{' = (pre.length : Int) := by
    rw [List.append_assoc]
    refine strFind_concat pre (obj ++ post) '{' hpre ⟨r1 ++ post, ?_⟩
    rw [hr1]
    simp
  have hrfind : strRFind (pre ++ obj ++ post) '}' = ((pre ++ obj).length : Int) - 1 := by
    refine strRFind_concat (pre ++ obj) post '}' hpost ?_
    obtain ⟨r2, hr2⟩ := hobj2
    exact ⟨r2 ++ pre.reverse, by rw [List.reverse_append, hr2]; simp⟩
  have hlen : 0 < obj.length := by rw [hr1]; simp
  unfold braceSpan
  rw [hfind, hrfind]
  have hcond : ((pre.length : Int) ≠ -1) ∧
      ((pre ++ obj).length : Int) - 1 + 1 > (pre.length : Int) := by
    constructor
    · omega
    · simp only [List.length_append]
      push_cast
      omega
  rw [if_pos hcond]
  unfold pySlice
  have e1 : ((pre.length : Int)).toNat = pre.length := Int.toNat_natCast _
  have e2 : (((pre ++ obj).length : Int) - 1 + 1).toNat = pre.length + obj.length := by
    simp only [List.length_append]
    push_cast
    omega
  rw [e1, e2, List.append_assoc, List.drop_left]
  have e3 : pre.length + obj.length - pre.length = obj.length := by omega
  rw [e3, List.take_left]

def c6obj : List Char :=
  ['{', '"'] ++ "suggestions".toList ++ ['"', ':', ' ', '[', ']', '}']

def c6raw : List Char := '{' :: c6obj

/-- C6 counterexample: `c6obj` is a valid JSON analysis object, but with
the single extraneous leading character `'{'` the slice from the first
brace to the last runs from the junk brace, fails to decode, and the
parser returns the error-flagged decode-failure dict — the error flag is
not unset for every surrounding junk. -/
theorem c6_counterexample :
    jsonLoads c6obj = some (.obj [(suggestionsKey, .arr [])]) ∧
    parseAnalysisResponse c6raw = .ok (decodeFailureResult c6raw) ∧
    getKey (decodeFailureResult c6raw) errorKey = some (.bool true) :=
  ⟨rfl, rfl, rfl⟩

/-- C6 (amended): parsing recovers the embedded object with the error flag
unset provided the leading junk contains no `'{'` and the trailing junk no
`'}'` (so the first-brace/last-brace slice is exactly the object text);
the object must also be free of an `error` field and carry a well-shaped
`suggestions` value. -/
theorem c6_embedded_json (pre obj post : List Char) (a : Dict)
    (hpre : '{' ∉ pre) (hpost : '}' ∉ post)
    (hobj1 : ∃ r, obj = '{' :: r) (hobj2 : ∃ r, obj.reverse = '}' :: r)
    (hl : jsonLoads obj = some (.obj a)) (hOK : suggListOK a = true)
    (herr : hasKey a errorKey = false) :
    ∃ out, parseAnalysisResponse (pre ++ obj ++ post) = .ok out ∧
      hasKey out errorKey = false := by
  have hspan := braceSpan_wrapped pre obj post hpre hpost hobj1 hobj2
  obtain ⟨out, l, hpp, _, _, _, hother, _⟩ := postProcess_spec a hOK
  refine ⟨out, (parse_eq_of_decode_obj _ obj a hspan hl).trans hpp, ?_⟩
  have h1 : getKey out errorKey = getKey a errorKey :=
    hother errorKey (by decide) (by decide) (by decide)
  unfold hasKey
  rw [h1]
  exact herr

def c6wobjTail : List Char :=
  ['"'] ++ "suggestions".toList ++ ['"', ':', ' ', '[', ']', '}']

def c6wobj : List Char := '{' :: c6wobjTail

def c6pre : List Char := "Sure! Here is the JSON: ".toList

def c6post : List Char := " Hope this helps.".toList

/-- C6 witness: a concrete valid object between brace-free prose. -/
theorem c6_embedded_json_witness :
    ('{' ∉ c6pre) ∧ ('}' ∉ c6post) ∧
    jsonLoads c6wobj = some (.obj [(suggestionsKey, .arr [])]) ∧
    suggListOK [(suggestionsKey, .arr [])] = true ∧
    hasKey [(suggestionsKey, .arr [])] errorKey = false ∧
    (∃ out, parseAnalysisResponse (c6pre ++ c6wobj ++ c6post) = .ok out ∧
      hasKey out errorKey = false) :=
  ⟨by decide, by decide, rfl, rfl, rfl,
   c6_embedded_json c6pre c6wobj c6post [(suggestionsKey, .arr [])]
     (by decide) (by decide) ⟨c6wobjTail, rfl⟩ ⟨c6wobj.reverse.tail, rfl⟩
     rfl rfl rfl⟩

/-! ## Claim C8: degraded results for undecodable input -/

/-- When no opening brace precedes a later closing brace, the parser's
guard fails. -/
theorem braceSpan_none_of_noPair (s : List Char)
    (h : ∀ i j : Nat, i < j → s.get? i = some '{' → s.get? j ≠ some '}') :
    braceSpan s = none := by
  unfold braceSpan
  rw [if_neg]
  rintro ⟨h1, h2⟩
  cases hf : List.findIdx? (fun x => x = '{') s with
  | none =>
    apply h1
    unfold strFind
    rw [hf]
  | some i =>
    obtain ⟨hlt, hp, _⟩ := List.findIdx?_eq_some_iff_getElem.mp hf
    have hi : s.get? i = some '{' := by
      rw [List.get?_eq_getElem?, List.getElem?_eq_getElem hlt]
      simpa using hp
    cases hrf : List.findIdx? (fun x => x = '}') s.reverse with
    | none =>
      unfold strRFind strFind at h2
      rw [hrf, hf] at h2
      dsimp only at h2
      omega
    | some ir =>
      obtain ⟨hlt2, hp2, _⟩ := List.findIdx?_eq_some_iff_getElem.mp hrf
      have hlen : ir < s.length := by simpa using hlt2
      have hjchar : s.get? (s.length - 1 - ir) = some '}' := by
        have hb : s.length - 1 - ir < s.length := by omega
        rw [List.get?_eq_getElem?, List.getElem?_eq_getElem hb]
        have := List.getElem_reverse hlt2
        rw [this] at hp2
        simpa using hp2
      unfold strRFind strFind at h2
      rw [hrf, hf] at h2
      dsimp only at h2
      have hij : i ≤ s.length - 1 - ir := by omega
      rcases Nat.lt_or_ge i (s.length - 1 - ir) with h3 | h3
      · exact h i (s.length - 1 - ir) h3 hi hjchar
      · have : i = s.length - 1 - ir := by omega
        rw [← this] at hjchar
        rw [hi] at hjchar
        simp at hjchar

/-- C8: on raw text with no opening brace before a later closing brace the
parser returns the placeholder result — empty suggestions, placeholder
summary, zero issues, raw text preserved, error flag unset; a span that
exists but fails to decode yields the error-flagged result with empty
suggestions and the raw text preserved. -/
theorem c8_degraded_results (s : List Char) :
    ((∀ i j : Nat, i < j → s.get? i = some '{' → s.get? j ≠ some '}') →
      parseAnalysisResponse s = .ok (unexpectedFormatResult s) ∧
      getKey (unexpectedFormatResult s) suggestionsKey = some (.arr []) ∧
      getKey (unexpectedFormatResult s) summaryKey =
        some (.str unexpectedFormatMsg) ∧
      getKey (unexpectedFormatResult s) totalIssuesKey = some (.num 0) ∧
      getKey (unexpectedFormatResult s) rawResponseKey = some (.str s) ∧
      hasKey (unexpectedFormatResult s) errorKey = false) ∧
    (∀ t, braceSpan s = some t → jsonLoads t = none →
      parseAnalysisResponse s = .ok (decodeFailureResult s) ∧
      getKey (decodeFailureResult s) errorKey = some (.bool true) ∧
      getKey (decodeFailureResult s) suggestionsKey = some (.arr []) ∧
      getKey (decodeFailureResult s) rawResponseKey = some (.str s)) := by
  constructor
  · intro h
    exact ⟨parse_eq_of_braceSpan_none s (braceSpan_none_of_noPair s h),
      rfl, rfl, rfl, rfl, rfl⟩
  · intro t hb hl
    exact ⟨parse_eq_of_decode_none s t hb hl, rfl, rfl, rfl⟩

def c8plain : List Char := "completely plain text".toList

def c8bad : List Char := ['{', 'x', '}']

/-- C8 witness: both branches on concrete inputs — braceless prose and an
undecodable span. -/
theorem c8_degraded_results_witness :
    (parseAnalysisResponse c8plain = .ok (unexpectedFormatResult c8plain) ∧
      getKey (unexpectedFormatResult c8plain) suggestionsKey = some (.arr []) ∧
      getKey (unexpectedFormatResult c8plain) summaryKey =
        some (.str unexpectedFormatMsg) ∧
      getKey (unexpectedFormatResult c8plain) totalIssuesKey = some (.num 0) ∧
      getKey (unexpectedFormatResult c8plain) rawResponseKey =
        some (.str c8plain) ∧
      hasKey (unexpectedFormatResult c8plain) errorKey = false) ∧
    (parseAnalysisResponse c8bad = .ok (decodeFailureResult c8bad) ∧
      getKey (decodeFailureResult c8bad) errorKey = some (.bool true) ∧
      getKey (decodeFailureResult c8bad) suggestionsKey = some (.arr []) ∧
      getKey (decodeFailureResult c8bad) rawResponseKey = some (.str c8bad)) :=
  ⟨(c8_degraded_results c8plain).1
      (fun _ _ _ hi _ => absurd (List.get?_mem hi) (by decide)),
   (c8_degraded_results c8bad).2 c8bad rfl rfl⟩

/-! ## Claim C10: pass-through without validation -/

/-- C10: the post-decode step validates nothing — out-of-enum category and
priority strings, arbitrary field values and extra top-level fields pass
through into the returned result unchanged; only missing `suggestions`
(`[]`), missing `summary` (placeholder) and missing `total_issues`
(suggestion count) are default-filled, the suggestion list is only
reordered (a permutation, elements unchanged), and no key is ever
removed. -/
theorem c10_no_validation (s t : List Char) (a : Dict)
    (hb : braceSpan s = some t) (hl : jsonLoads t = some (.obj a))
    (hOK : suggListOK a = true) :
    ∃ out l, parseAnalysisResponse s = .ok out ∧
      (getKey a suggestionsKey = some (.arr l) ∨
        (getKey a suggestionsKey = none ∧ l = [])) ∧
      (∀ k, k ≠ suggestionsKey → k ≠ summaryKey → k ≠ totalIssuesKey →
        getKey out k = getKey a k) ∧
      (hasKey a summaryKey = true →
        getKey out summaryKey = getKey a summaryKey) ∧
      (hasKey a totalIssuesKey = true →
        getKey out totalIssuesKey = getKey a totalIssuesKey) ∧
      getKey out suggestionsKey = some (.arr (sortSuggestions l)) ∧
      List.Perm (sortSuggestions l) l ∧
      (hasKey a summaryKey = false →
        getKey out summaryKey = some (.str analysisCompletedMsg)) ∧
      (hasKey a suggestionsKey = false →
        getKey out suggestionsKey = some (.arr [])) ∧
      (hasKey a totalIssuesKey = false →
        getKey out totalIssuesKey = some (.num l.length)) ∧
      (∀ k, hasKey a k = true → hasKey out k = true) := by
  obtain ⟨out, l, hpp, horig, hall, houts, hother, hsum1, hsum2, htot1, htot2,
    hks, hkt⟩ := postProcess_spec a hOK
  refine ⟨out, l, (parse_eq_of_decode_obj s t a hb hl).trans hpp, horig, hother,
    hsum1, htot1, houts, perm_sortSuggestions l, hsum2, ?_, htot2, ?_⟩
  · intro hmiss
    rcases horig with h | ⟨h, hleq⟩
    · unfold hasKey at hmiss
      rw [h] at hmiss
      simp at hmiss
    · subst hleq
      simpa using houts
  · intro k hk
    by_cases h1 : k = suggestionsKey
    · subst h1
      unfold hasKey
      rw [houts]
      rfl
    · by_cases h2 : k = summaryKey
      · subst h2
        exact hks
      · by_cases h3 : k = totalIssuesKey
        · subst h3
          exact hkt
        · unfold hasKey at hk ⊢
          rw [hother k h1 h2 h3]
          exact hk

def qc : Char := '"'

def c10raw : List Char :=
  ['{'] ++ [qc] ++ "summary".toList ++ [qc, ':'] ++ [qc] ++ "ok".toList ++ [qc, ','] ++
  [qc] ++ "overall_score".toList ++ [qc, ':'] ++ [qc] ++ "7".toList ++ [qc, ','] ++
  [qc] ++ "suggestions".toList ++ [qc, ':', '[', '{'] ++
  [qc] ++ "priority".toList ++ [qc, ':'] ++ [qc] ++ "WEIRD".toList ++ [qc, ','] ++
  [qc] ++ "category".toList ++ [qc, ':'] ++ [qc] ++ "bogus".toList ++ [qc] ++
  ['}', ']', ','] ++
  [qc] ++ "total_issues".toList ++ [qc, ':', '9', '}']

def c10dict : Dict :=
  [("summary".toList, .str "ok".toList),
   ("overall_score".toList, .str "7".toList),
   (suggestionsKey, .arr [.obj [(priorityKey, .str "WEIRD".toList),
     ("category".toList, .str "bogus".toList)]]),
   (totalIssuesKey, .num 9)]

/-- C10 witness: an object with an out-of-enum priority, an out-of-enum
category, an extra `overall_score` field and explicit `summary` and
`total_issues`. -/
theorem c10_no_validation_witness :
    braceSpan c10raw = some c10raw ∧
    jsonLoads c10raw = some (.obj c10dict) ∧
    suggListOK c10dict = true ∧
    (∃ out l, parseAnalysisResponse c10raw = .ok out ∧
      (getKey c10dict suggestionsKey = some (.arr l) ∨
        (getKey c10dict suggestionsKey = none ∧ l = [])) ∧
      (∀ k, k ≠ suggestionsKey → k ≠ summaryKey → k ≠ totalIssuesKey →
        getKey out k = getKey c10dict k) ∧
      (hasKey c10dict summaryKey = true →
        getKey out summaryKey = getKey c10dict summaryKey) ∧
      (hasKey c10dict totalIssuesKey = true →
        getKey out totalIssuesKey = getKey c10dict totalIssuesKey) ∧
      getKey out suggestionsKey = some (.arr (sortSuggestions l)) ∧
      List.Perm (sortSuggestions l) l ∧
      (hasKey c10dict summaryKey = false →
        getKey out summaryKey = some (.str analysisCompletedMsg)) ∧
      (hasKey c10dict suggestionsKey = false →
        getKey out suggestionsKey = some (.arr [])) ∧
      (hasKey c10dict totalIssuesKey = false →
        getKey out totalIssuesKey = some (.num l.length)) ∧
      (∀ k, hasKey c10dict k = true → hasKey out k = true)) :=
  ⟨rfl, rfl, rfl, c10_no_validation c10raw c10raw c10dict rfl rfl rfl⟩
